import Mathlib

/-!
Verification of the CLB box-score stat-derivation engine.

The definitions below are a shallow embedding of the two core components:

* the at-bat shorthand parser (`parseNotation` / `calculateIP` in
  `src/BoxScoreNotation.js`), embedded here as `CLB.parseCell` and
  `CLB.calculateIP` over `List Char` (JS strings are modelled as lists of
  characters; the JS regexes `PC\[?(\d)\]?`, `E\[?([1-9])\]?`,
  `NP\[?([1-9])\]?` are embedded as explicit left-to-right scanners);

* the stateful bulk replay processor (`processTeamAtBats` in the triggers
  module, `src/unnamed/part_002`), embedded as `CLB.processCell`,
  `CLB.processColumns` and `CLB.processTeamAtBats` over an explicit
  `ReplayState`.  The spreadsheet reads performed by the source are modelled
  as explicit inputs (the at-bat grid, the roster map, and the pitcher
  timeline), exactly as the source consumes them.
-/

namespace CLB

/-- JS string literal helper: the character list of a Lean string. -/
def chars (s : String) : List Char := s.data

/-- The ASCII whitespace characters recognised by `String.prototype.trim`
(space, tab, LF, VT, FF, CR; the Unicode space classes are not needed by
any claim and are omitted). -/
def isJSWhitespace (c : Char) : Bool :=
  c.toNat = 32 || c.toNat = 9 || c.toNat = 10 || c.toNat = 11 || c.toNat = 12 || c.toNat = 13

/-- `String.prototype.toUpperCase` on one character (ASCII range; the
notation vocabulary is ASCII). -/
def toUpperJS (c : Char) : Char :=
  if 97 ≤ c.toNat ∧ c.toNat ≤ 122 then Char.ofNat (c.toNat - 32) else c

/-- `String.prototype.trim`: strip leading and trailing whitespace. -/
def trimJS (l : List Char) : List Char :=
  ((l.dropWhile isJSWhitespace).reverse.dropWhile isJSWhitespace).reverse

/-- Numeric value of an ASCII digit character (`parseInt` on one digit). -/
def digitVal (c : Char) : Nat := c.toNat - 48

/-- The JS regex class `\d` (exactly the ASCII digits 0-9). -/
def isDigitJS (c : Char) : Bool := 48 ≤ c.toNat && c.toNat ≤ 57

/-- The JS regex class `[1-9]`. -/
def isDigit19 (c : Char) : Bool := 49 ≤ c.toNat && c.toNat ≤ 57

/-- `value.indexOf(tok) !== -1`: substring containment. -/
def inStr (tok v : List Char) : Bool := decide (tok <:+: v)

/-- `value.startsWith(tok)`. -/
def startsWithJS (tok v : List Char) : Bool := decide (tok <+: v)

/-- `value.endsWith(tok)`. -/
def endsWithJS (tok v : List Char) : Bool := decide (tok <:+ v)

/-- Attempt to match the regex `PC\[?(\d)\]?` at the head of the list.
Returns the captured digit's value and the length of the matched text
(the optional brackets are matched greedily, as in JS). -/
def pcMatchAt : List Char → Option (Nat × Nat)
  | 'P' :: 'C' :: '[' :: d :: rest =>
      if isDigitJS d then
        some (digitVal d, 4 + (match rest with | ']' :: _ => 1 | _ => 0))
      else none
  | 'P' :: 'C' :: d :: rest =>
      if isDigitJS d then
        some (digitVal d, 3 + (match rest with | ']' :: _ => 1 | _ => 0))
      else none
  | _ => none

/-- `value.match(/PC\[?(\d)\]?/)` together with the information needed for
`value.replace(...)`: the first (leftmost) match, returned as
(text before the match, captured digit, text after the match). -/
def findPC : List Char → Option (List Char × Nat × List Char)
  | [] => none
  | c :: cs =>
    match pcMatchAt (c :: cs) with
    | some (d, len) => some ([], d, (c :: cs).drop len)
    | none =>
      match findPC cs with
      | some (pre, d, post) => some (c :: pre, d, post)
      | none => none

/-- Attempt to match the regex `E\[?([1-9])\]?` at the head of the list
(only the captured digit is needed). -/
def eMatchAt : List Char → Option Nat
  | 'E' :: '[' :: d :: _ => if isDigit19 d then some (digitVal d) else none
  | 'E' :: d :: _ => if isDigit19 d then some (digitVal d) else none
  | _ => none

/-- `value.match(/E\[?([1-9])\]?/)`: the first match's captured digit. -/
def findE : List Char → Option Nat
  | [] => none
  | c :: cs =>
    match eMatchAt (c :: cs) with
    | some d => some d
    | none => findE cs

/-- Attempt to match the regex `NP\[?([1-9])\]?` at the head of the list. -/
def npMatchAt : List Char → Option Nat
  | 'N' :: 'P' :: '[' :: d :: _ => if isDigit19 d then some (digitVal d) else none
  | 'N' :: 'P' :: d :: _ => if isDigit19 d then some (digitVal d) else none
  | _ => none

/-- `value.match(/NP\[?([1-9])\]?/)`: the first match's captured digit. -/
def findNP : List Char → Option Nat
  | [] => none
  | c :: cs =>
    match npMatchAt (c :: cs) with
    | some d => some d
    | none => findNP cs

/-- The `stats` object returned by the parser (field names follow the
source: `BF`, `outs`, `H`, `HR`, `R`, `BB`, `K`, `AB`, `TB`, the boolean
flags, and the v3 fields). -/
structure Stats where
  BF : Nat
  outs : Nat
  H : Nat
  HR : Nat
  R : Nat
  BB : Nat
  K : Nat
  AB : Nat
  TB : Nat
  NP : Bool
  E : Bool
  SB : Bool
  CS : Bool
  DP : Bool
  FC : Bool
  isPitcherChange : Bool
  inheritedRunners : Nat
  isError : Bool
  isNicePlay : Bool
  fielderPosition : Option Nat
deriving DecidableEq

/-- The all-zero `stats` object initialised at the top of the parser. -/
def zeroStats : Stats :=
  { BF := 0, outs := 0, H := 0, HR := 0, R := 0, BB := 0, K := 0, AB := 0, TB := 0
  , NP := false, E := false, SB := false, CS := false, DP := false, FC := false
  , isPitcherChange := false, inheritedRunners := 0
  , isError := false, isNicePlay := false, fielderPosition := none }

/-- The main body of the parser, run on the uppercased and trimmed value
`v` after the pitching-change token has been examined (`isPC`/`ir` carry
the pitching-change fields already set).  Each field below mirrors the
corresponding sequential assignments of the source: where the source
assigns the same field several times, the field's value here is the
if-chain describing the last assignment that fires. -/
def parseBody (v : List Char) (isPC : Bool) (ir : Nat) : Stats :=
  let eM := findE v
  let npM := findNP v
  -- hits (substring containment; later checks overwrite TB of earlier ones)
  let has1B := inStr (chars ("1B")) v
  let has2B := inStr (chars ("2B")) v
  let has3B := inStr (chars ("3B")) v
  let hasHR := inStr (chars ("HR")) v
  let hVal : Nat := if has1B || has2B || has3B || hasHR then 1 else 0
  let tbVal : Nat := if hasHR then 4 else if has3B then 3 else if has2B then 2 else if has1B then 1 else 0
  let hrVal : Nat := if hasHR then 1 else 0
  -- walks
  let isWalk := inStr (chars ("BB")) v
  let bbVal : Nat := if isWalk then 1 else 0
  -- strikeouts
  let kVal : Nat := if inStr (chars ("K")) v then 1 else 0
  -- fielder's choice
  let hasFC := inStr (chars ("FC")) v
  let hasFCOUT := inStr (chars ("FC OUT")) v || inStr (chars ("FCOUT")) v
  let outs1 : Nat := if hasFC && hasFCOUT then 1 else 0
  let fcFlag := hasFC && !hasFCOUT
  -- sacrifice fly / hit
  let isSacrifice := inStr (chars ("SF")) v || inStr (chars ("SH")) v
  let outs2 : Nat := if isSacrifice then 1 else outs1
  -- out-count cascade (TP > DP > single out; only the single-out branch
  -- is guarded by `outs === 0`)
  let hasTP := inStr (chars ("TP")) v
  let hasDP := inStr (chars ("DP")) v
  let hasOUT := inStr (chars ("OUT")) v
  let outs3 : Nat :=
    if hasTP then 3
    else if hasDP then 2
    else if (hasOUT || kVal = 1) && outs2 = 0 then 1
    else outs2
  -- stolen bases / caught stealing (CS adds an out)
  let sbFlag := inStr (chars ("SB")) v
  let csFlag := inStr (chars ("CS")) v
  let outs4 : Nat := outs3 + (if csFlag then 1 else 0)
  -- RBI priority 4 > 3 > 2 > 1
  let rVal : Nat :=
    if inStr (chars ("4RBI")) v then 4
    else if inStr (chars ("3RBI")) v then 3
    else if inStr (chars ("2RBI")) v then 2
    else if inStr (chars ("RBI")) v then 1
    else 0
  -- at-bat determination (walks and sacrifices exempt)
  let abVal : Nat := if !isWalk && !isSacrifice then 1 else 0
  -- legacy NP / E fallbacks
  let npFlag := npM.isNone && inStr (chars ("NP")) v
  let eFlag := eM.isNone &&
    (decide (v = chars ("E")) ||
      (decide (3 ≤ v.length) &&
        (inStr (chars (" E ")) v || startsWithJS (chars ("E ")) v || endsWithJS (chars (" E")) v)))
  { BF := 1, outs := outs4, H := hVal, HR := hrVal, R := rVal, BB := bbVal, K := kVal
  , AB := abVal, TB := tbVal
  , NP := npFlag, E := eFlag, SB := sbFlag, CS := csFlag
  , DP := hasTP || hasDP, FC := fcFlag
  , isPitcherChange := isPC, inheritedRunners := ir
  , isError := eM.isSome, isNicePlay := npM.isSome
  , fielderPosition :=
      match npM with
      | some d => some d
      | none => match eM with | some d => some d | none => none }

/-- `String(value).toUpperCase().trim()`: the processed value the parser
actually scans. -/
def procVal (raw : List Char) : List Char := trimJS (raw.map toUpperJS)

/-- Embedding of `parseNotation` from `src/BoxScoreNotation.js`: parse one
at-bat cell.  The emptiness check precedes the uppercase/trim, exactly as
in the source (`if (!value || value === "") return stats;`). -/
def parseCell (raw : List Char) : Stats :=
  if raw = [] then zeroStats
  else
    let v := procVal raw
    match findPC v with
    | some (pre, d, post) =>
      if trimJS (pre ++ post) = [] then
        { zeroStats with isPitcherChange := true, inheritedRunners := d }
      else parseBody v true d
    | none => parseBody v false 0

/-- Embedding of `calculateIP`: innings pitched from an out count.  The
fractional notation values .33/.67 are represented exactly as rationals. -/
def calculateIP (outs : Int) : ℚ :=
  let o : Int := if outs < 0 then 0 else outs
  let fullInnings : Int := o / 3
  let remainderOuts : Int := o % 3
  let fractional : ℚ :=
    if remainderOuts = 1 then 33 / 100
    else if remainderOuts = 2 then 67 / 100
    else 0
  (fullInnings : ℚ) + fractional

/-! ## The bulk replay processor (`processTeamAtBats`) -/

/-- A team marker.  The batting team determines the batter lookups; the
opposing (fielding) team's pitchers receive the pitching credit. -/
inductive Team where
  | away
  | home
deriving DecidableEq

/-- `fieldingTeam = (battingTeam === 'away') ? 'home' : 'away'`. -/
def Team.opp : Team → Team
  | .away => .home
  | .home => .away

/-- One entry of the roster map built by `buildRosterMap`: the player's
team, batting-order index (0-8) and current fielding position token. -/
structure RosterEntry where
  team : Team
  batterIndex : Nat
  position : List Char

/-- The roster map (player name → entry), in insertion order, as iterated
by `Object.keys` / `for..in` in the source. -/
abbrev Roster := List (String × RosterEntry)

/-- A pitcher's accumulated pitching line. -/
structure Pitching where
  BF : Nat
  outs : Nat
  H : Nat
  HR : Nat
  R : Nat
  BB : Nat
  K : Nat
deriving DecidableEq

/-- A batter's accumulated hitting line. -/
structure Hitting where
  AB : Nat
  H : Nat
  HR : Nat
  RBI : Nat
  BB : Nat
  K : Nat
  ROB : Nat
  DP : Nat
  TB : Nat
deriving DecidableEq

/-- A player's accumulated fielding line. -/
structure Fielding where
  NP : Nat
  E : Nat
  SB : Nat
deriving DecidableEq

/-- One player's entry in the `playerStats` accumulator: three lazily
created sub-records (absent = `none`, as in the source's plain object). -/
structure PlayerStats where
  pitching : Option Pitching
  hitting : Option Hitting
  fielding : Option Fielding
deriving DecidableEq

/-- The zero pitching record `{BF: 0, outs: 0, H: 0, HR: 0, R: 0, BB: 0, K: 0}`. -/
def pit0 : Pitching := { BF := 0, outs := 0, H := 0, HR := 0, R := 0, BB := 0, K := 0 }

/-- The zero hitting record. -/
def hit0 : Hitting :=
  { AB := 0, H := 0, HR := 0, RBI := 0, BB := 0, K := 0, ROB := 0, DP := 0, TB := 0 }

/-- The zero fielding record `{NP: 0, E: 0, SB: 0}`. -/
def fld0 : Fielding := { NP := 0, E := 0, SB := 0 }

/-- A freshly created, empty player entry (`playerStats[name] = {}`). -/
def emptyPS : PlayerStats := { pitching := none, hitting := none, fielding := none }

/-- The `playerStats` accumulator object: player name → entry
(`none` = the player has no entry yet). -/
abbrev PMap := String → Option PlayerStats

/-- Read a player's entry, treating a missing entry as empty. -/
def getPS (m : PMap) (n : String) : PlayerStats := (m n).getD emptyPS

/-- Store a player's entry (`playerStats[name] = v`). -/
def setPS (m : PMap) (n : String) (v : PlayerStats) : PMap :=
  fun k => if k = n then some v else m k

/-- `playerStats[n] && playerStats[n].pitching` as an `Option`. -/
def pitchPart (m : PMap) (n : String) : Option Pitching :=
  (m n).bind PlayerStats.pitching

/-- `playerStats[n] && playerStats[n].hitting` as an `Option`. -/
def hitPart (m : PMap) (n : String) : Option Hitting :=
  (m n).bind PlayerStats.hitting

/-- `playerStats[n] && playerStats[n].fielding` as an `Option`. -/
def fldPart (m : PMap) (n : String) : Option Fielding :=
  (m n).bind PlayerStats.fielding

/-- Resolve the batter for a batting-order row: the first roster entry of
the batting team whose `batterIndex` equals the row (the source filters
`Object.keys(rosterMap)` and takes element 0). -/
def batterFor (roster : Roster) (bt : Team) (row : Nat) : Option String :=
  (roster.find? fun p => decide (p.2.team = bt ∧ p.2.batterIndex = row)).map Prod.fst

/-- The `positionMap` of `findPlayerByPosition`. -/
def positionToken : Nat → Option (List Char)
  | 1 => some (chars ("P"))
  | 2 => some (chars ("C"))
  | 3 => some (chars ("1B"))
  | 4 => some (chars ("2B"))
  | 5 => some (chars ("3B"))
  | 6 => some (chars ("SS"))
  | 7 => some (chars ("LF"))
  | 8 => some (chars ("CF"))
  | 9 => some (chars ("RF"))
  | _ => none

/-- Embedding of `findPlayerByPosition`: first player of the given team
whose current position matches the position number's token. -/
def findPlayerByPosition (roster : Roster) (t : Team) (pos : Nat) : Option String :=
  match positionToken pos with
  | none => none
  | some tok =>
    (roster.find? fun p => decide (p.2.team = t ∧ p.2.position = tok)).map Prod.fst

/-- The replay state threaded through `processTeamAtBats`' loops. -/
structure ReplayState where
  playerStats : PMap
  pitcherIndex : Nat
  activePitcher : Option String
  previousPitcher : Option String
  inheritedRunners : Nat

/-- `pitcherTimeline[i]`: the timeline is a sparse JS array (missing relief
numbers and out-of-range indices read as `undefined`, modelled `none`). -/
def tlook (tl : List (Option String)) (i : Nat) : Option String := (tl[i]?).getD none

/-- The pitcher-change transition (both the standalone branch and the
combined-cell branch run this same block): store the departing pitcher as
`previousPitcher`, advance the timeline index, install the next timeline
pitcher, and set `inheritedRunners` from the parsed notation. -/
def pitcherHandoff (tl : List (Option String)) (irNew : Nat) (st : ReplayState) : ReplayState :=
  { st with previousPitcher := st.activePitcher
          , pitcherIndex := st.pitcherIndex + 1
          , activePitcher := tlook tl (st.pitcherIndex + 1)
          , inheritedRunners := irNew }

/-- Lazily create the batter's entry and its hitting/fielding sub-records. -/
def ensureBatter (m : PMap) (b : String) : PMap :=
  let r := getPS m b
  setPS m b { r with hitting := some (r.hitting.getD hit0)
                   , fielding := some (r.fielding.getD fld0) }

/-- Lazily create the active pitcher's entry and its pitching sub-record
(no pitcher active → nothing happens). -/
def ensurePitcher (m : PMap) (ap : Option String) : PMap :=
  match ap with
  | none => m
  | some p =>
    let r := getPS m p
    setPS m p { r with pitching := some (r.pitching.getD pit0) }

/-- The batter's per-cell hitting increments. -/
def hittingAdd (h : Hitting) (s : Stats) : Hitting :=
  { h with AB := h.AB + s.AB, H := h.H + s.H, HR := h.HR + s.HR, RBI := h.RBI + s.R
         , BB := h.BB + s.BB, K := h.K + s.K
         , DP := h.DP + (if s.DP then 1 else 0), TB := h.TB + s.TB }

/-- Apply the hitting increments to the batter's (ensured) hitting record. -/
def applyHitting (m : PMap) (b : String) (s : Stats) : PMap :=
  let r := getPS m b
  setPS m b { r with hitting := some (hittingAdd (r.hitting.getD hit0) s) }

/-- The active pitcher's per-cell counting increments (runs are handled
separately by the inherited-runner logic). -/
def pitchAdd (pit : Pitching) (s : Stats) : Pitching :=
  { pit with BF := pit.BF + s.BF, outs := pit.outs + s.outs, H := pit.H + s.H
           , HR := pit.HR + s.HR, BB := pit.BB + s.BB, K := pit.K + s.K }

/-- Embedding of the `if (activePitcher && playerStats[activePitcher].pitching)`
block: counting increments for the active pitcher, then the inherited-run
attribution for `stats.R`.  Returns the updated accumulator together with
the updated `inheritedRunners` value.  (In the replay the active pitcher's
record always exists at this point because `ensurePitcher` just ran; the
`none` guard case mirrors the JS truthiness test.) -/
def applyPitchingAndRuns (m : PMap) (ap pp : Option String) (ir : Nat) (s : Stats) :
    PMap × Nat :=
  match ap with
  | none => (m, ir)
  | some p =>
    match pitchPart m p with
    | none => (m, ir)
    | some pit =>
      let m1 := setPS m p { getPS m p with pitching := some (pitchAdd pit s) }
      if 0 < s.R then
        if 0 < ir then
          let runsToInherit := min s.R ir
          let m2 :=
            match pp with
            | some q =>
              match pitchPart m1 q with
              | some qpit =>
                setPS m1 q { getPS m1 q with pitching := some { qpit with R := qpit.R + runsToInherit } }
              | none => m1
            | none => m1
          let cur := (pitchPart m2 p).getD (pitchAdd pit s)
          (setPS m2 p { getPS m2 p with pitching := some { cur with R := cur.R + (s.R - runsToInherit) } },
            ir - runsToInherit)
        else
          let cur := (pitchPart m1 p).getD (pitchAdd pit s)
          (setPS m1 p { getPS m1 p with pitching := some { cur with R := cur.R + s.R } }, ir)
      else (m1, ir)

/-- `playerStats[f].fielding.NP += 1` (with lazy creation of the entry
and its fielding sub-record, as in the source). -/
def bumpNP (m : PMap) (f : String) : PMap :=
  let fr := getPS m f
  let fl := fr.fielding.getD fld0
  setPS m f { fr with fielding := some { fl with NP := fl.NP + 1 } }

/-- `playerStats[f].fielding.E += 1` (with lazy creation). -/
def bumpE (m : PMap) (f : String) : PMap :=
  let fr := getPS m f
  let fl := fr.fielding.getD fld0
  setPS m f { fr with fielding := some { fl with E := fl.E + 1 } }

/-- `playerStats[b].fielding.SB += 1` (the batter's row, a source
convention). -/
def bumpSB (m : PMap) (b : String) : PMap :=
  let br := getPS m b
  let bf := br.fielding.getD fld0
  setPS m b { br with fielding := some { bf with SB := bf.SB + 1 } }

/-- `playerStats[batterName].hitting.ROB += 1` (the batter was robbed). -/
def bumpROB (m : PMap) (b : String) : PMap :=
  let br := getPS m b
  let bh := br.hitting.getD hit0
  setPS m b { br with hitting := some { bh with ROB := bh.ROB + 1 } }

/-- Embedding of the nice-play fielding block: credit the fielder resolved
by position (if any) with a nice play and the batter with a "robbed"
(`ROB`) increment. -/
def applyNicePlay (m : PMap) (roster : Roster) (ft : Team) (b : String) (s : Stats) : PMap :=
  if s.isNicePlay = true ∧ s.fielderPosition.getD 0 ≠ 0 then
    match findPlayerByPosition roster ft (s.fielderPosition.getD 0) with
    | some f => bumpROB (bumpNP m f) b
    | none => m
  else m

/-- Embedding of the error fielding block: credit the fielder resolved by
position (if any) with an error. -/
def applyErrorFielding (m : PMap) (roster : Roster) (ft : Team) (s : Stats) : PMap :=
  if s.isError = true ∧ s.fielderPosition.getD 0 ≠ 0 then
    match findPlayerByPosition roster ft (s.fielderPosition.getD 0) with
    | some f => bumpE m f
    | none => m
  else m

/-- Embedding of the stolen-base block: the batter's fielding `SB` counter
(a source convention) is incremented. -/
def applySB (m : PMap) (b : String) (s : Stats) : PMap :=
  if s.SB = true then bumpSB m b
  else m

/-- The at-bat branch of the cell processing (the cell has a resolved
batter `b`): hitting attribution, pitching attribution with inherited-run
handling, fielding attribution, and finally the combined-cell pitcher
handoff when the outcome also carries `isPitcherChange`. -/
def processCellBody (roster : Roster) (bt : Team) (tl : List (Option String))
    (v : List Char) (st : ReplayState) (b : String) : ReplayState :=
  let stats := parseCell v
  let m1 := ensureBatter st.playerStats b
  let m2 := ensurePitcher m1 st.activePitcher
  let m3 := applyHitting m2 b stats
  let r4 := applyPitchingAndRuns m3 st.activePitcher st.previousPitcher st.inheritedRunners stats
  let m5 := applyNicePlay r4.1 roster bt.opp b stats
  let m6 := applyErrorFielding m5 roster bt.opp stats
  let m7 := applySB m6 b stats
  let st1 : ReplayState := { st with playerStats := m7, inheritedRunners := r4.2 }
  -- combined cell: the handoff happens only after the above attribution
  if stats.isPitcherChange = true then pitcherHandoff tl stats.inheritedRunners st1 else st1

/-- Process one non-empty at-bat cell: the body of the inner loop of
`processTeamAtBats` (src/unnamed/part_002, lines 769-902). -/
def processCell (roster : Roster) (bt : Team) (tl : List (Option String)) (row : Nat)
    (v : List Char) (st : ReplayState) : ReplayState :=
  let stats := parseCell v
  -- standalone pitching-change marker: handoff only, no stat attribution
  if stats.isPitcherChange = true ∧ stats.BF = 0 then
    pitcherHandoff tl stats.inheritedRunners st
  else
    match batterFor roster bt row with
    | none => st
    | some b => processCellBody roster bt tl v st b

/-- Read one grid cell (`undefined`/empty both read as the empty cell). -/
def cellAt (grid : List (List (List Char))) (row col : Nat) : List Char :=
  ((grid[row]?).bind fun r => r[col]?).getD []

/-- The inner (row) loop of `processTeamAtBats` over one column: empty
cells are skipped. -/
def processRowsInCol (roster : Roster) (bt : Team) (tl : List (Option String))
    (grid : List (List (List Char))) (col : Nat) :
    List Nat → ReplayState → ReplayState
  | [], st => st
  | r :: rs, st =>
    let val := cellAt grid r col
    processRowsInCol roster bt tl grid col rs
      (if val = [] then st else processCell roster bt tl r val st)

/-- Process one whole column (inning) of the grid. -/
def processInning (roster : Roster) (bt : Team) (tl : List (Option String))
    (grid : List (List (List Char))) (col : Nat) (st : ReplayState) : ReplayState :=
  processRowsInCol roster bt tl grid col (List.range grid.length) st

/-- `inheritedRunners = 0;` at the end of every column (line 906). -/
def inningBoundaryReset (st : ReplayState) : ReplayState :=
  { st with inheritedRunners := 0 }

/-- The outer (column) loop: after each column the inherited-runner count
is reset unconditionally. -/
def processColumns (roster : Roster) (bt : Team) (tl : List (Option String))
    (grid : List (List (List Char))) :
    List Nat → ReplayState → ReplayState
  | [], st => st
  | c :: cs, st =>
    processColumns roster bt tl grid cs
      (inningBoundaryReset (processInning roster bt tl grid c st))

/-- The initial replay state (`activePitcher = pitcherTimeline[0] || null`). -/
def initState (tl : List (Option String)) : ReplayState :=
  { playerStats := fun _ => none
  , pitcherIndex := 0
  , activePitcher := tlook tl 0
  , previousPitcher := none
  , inheritedRunners := 0 }

/-- Embedding of `processTeamAtBats`: replay a team's at-bat grid
column-by-column (inning order), row-by-row (batting order), against the
fielding team's pitcher timeline. -/
def processTeamAtBats (grid : List (List (List Char))) (roster : Roster) (bt : Team)
    (tl : List (Option String)) : ReplayState :=
  processColumns roster bt tl grid
    (List.range (((grid[0]?).map List.length).getD 0)) (initState tl)

/-! ## Concrete replay scenario used by the witnesses

A one-inning away-team grid: leadoff single against starter A, a
standalone pitching change to reliever B with two inherited runners, then
two RBI singles.  Inherited-runner conservation demands that A is charged
both runs and B none. -/

def wTimeline : List (Option String) := [some ("A"), some ("B")]

def wRoster : Roster :=
  [(("b0"), { team := .away, batterIndex := 0, position := [] }),
   (("b2"), { team := .away, batterIndex := 2, position := [] }),
   (("b3"), { team := .away, batterIndex := 3, position := [] })]

def wGrid : List (List (List Char)) :=
  [[chars ("1B")], [chars ("PC2")], [chars ("1B RBI")], [chars ("1B RBI")]]

/-- The replay state right after the scenario's pitching change: A has
pitched to one batter (one hit), B is active with two inherited runners. -/
def wState : ReplayState :=
  { playerStats := setPS (fun _ => none) ("A")
      ⟨some { BF := 1, outs := 0, H := 1, HR := 0, R := 0, BB := 0, K := 0 }, none, none⟩
  , pitcherIndex := 1
  , activePitcher := some ("B")
  , previousPitcher := some ("A")
  , inheritedRunners := 2 }

/-- A fresh state with starter A active (used by the combined-cell
witness). -/
def wState0 : ReplayState :=
  { playerStats := fun _ => none
  , pitcherIndex := 0
  , activePitcher := some ("A")
  , previousPitcher := none
  , inheritedRunners := 0 }

/-- A state with no active pitcher (the timeline has no entry at index 1)
but a previous pitcher with an existing pitching record and two inherited
runners outstanding (used by the guarded-run-attribution witness). -/
def wStateNoAP : ReplayState :=
  { playerStats := setPS (fun _ => none) ("A") ⟨some pit0, none, none⟩
  , pitcherIndex := 1
  , activePitcher := none
  , previousPitcher := some ("A")
  , inheritedRunners := 2 }

/-! ## Parser facts -/

theorem parseBody_BF (v : List Char) (pc : Bool) (ir : Nat) : (parseBody v pc ir).BF = 1 := rfl

theorem parseBody_ir (v : List Char) (pc : Bool) (ir : Nat) :
    (parseBody v pc ir).inheritedRunners = ir := rfl

theorem zeroStats_BF : zeroStats.BF = 0 := rfl

theorem parseBody_E (v : List Char) (pc : Bool) (ir : Nat) :
    (parseBody v pc ir).E =
      ((findE v).isNone &&
        (decide (v = chars ("E")) ||
          (decide (3 ≤ v.length) &&
            (inStr (chars (" E ")) v || startsWithJS (chars ("E ")) v
              || endsWithJS (chars (" E")) v)))) := rfl

/-- Any cell whose parsed `BF` is 1 went through the main parser body. -/
theorem parseCell_cases (s : List Char) (h : (parseCell s).BF = 1) :
    ∃ pc ir, parseCell s = parseBody (procVal s) pc ir := by
  by_cases hs : s = []
  · rw [hs] at h
    simp [parseCell, zeroStats] at h
  · rcases hfp : findPC (procVal s) with _ | ⟨pre, d, post⟩
    · refine ⟨false, 0, ?_⟩
      simp [parseCell, hs, hfp]
    · by_cases hst : trimJS (pre ++ post) = []
      · exfalso
        rw [parseCell, if_neg hs] at h
        simp only [hfp, hst, if_pos] at h
        simp [zeroStats] at h
      · refine ⟨true, d, ?_⟩
        rw [parseCell, if_neg hs]
        simp only [hfp, hst]
        simp

/-- A cell that recorded any runsAllowed has `BF = 1` (only the main body
sets `R`, and it always sets `BF = 1`). -/
theorem parseCell_BF_of_R (s : List Char) (h : 0 < (parseCell s).R) :
    (parseCell s).BF = 1 := by
  by_cases hs : s = []
  · rw [hs] at h
    simp [parseCell, zeroStats] at h
  · rcases hfp : findPC (procVal s) with _ | ⟨pre, d, post⟩
    · rw [parseCell, if_neg hs]
      simp only [hfp]
      simp [parseBody_BF]
    · by_cases hst : trimJS (pre ++ post) = []
      · exfalso
        rw [parseCell, if_neg hs] at h
        simp only [hfp, hst, if_pos] at h
        simp [zeroStats] at h
      · rw [parseCell, if_neg hs]
        simp only [hfp, hst]
        simp [parseBody_BF]

theorem digitVal_le9 (c : Char) (h : isDigitJS c = true) : digitVal c ≤ 9 := by
  simp only [isDigitJS, Bool.and_eq_true, decide_eq_true_eq] at h
  unfold digitVal
  omega

theorem pcMatchAt_le9 (l : List Char) (d len : Nat) (h : pcMatchAt l = some (d, len)) :
    d ≤ 9 := by
  unfold pcMatchAt at h
  split at h
  case _ =>
    split at h
    · simp only [Option.some.injEq, Prod.mk.injEq] at h
      rename_i hd
      exact h.1 ▸ digitVal_le9 _ hd
    · exact absurd h (by simp)
  case _ =>
    split at h
    · simp only [Option.some.injEq, Prod.mk.injEq] at h
      rename_i hd
      exact h.1 ▸ digitVal_le9 _ hd
    · exact absurd h (by simp)
  case _ => exact absurd h (by simp)

theorem findPC_le9 :
    ∀ (v pre : List Char) (d : Nat) (post : List Char),
      findPC v = some (pre, d, post) → d ≤ 9
  | [], pre, d, post => by simp [findPC]
  | c :: cs, pre, d, post => by
    intro h
    rw [findPC] at h
    rcases hm : pcMatchAt (c :: cs) with _ | ⟨d', len⟩
    · rw [hm] at h
      rcases hf : findPC cs with _ | ⟨pre', d'', post'⟩
      · rw [hf] at h
        exact absurd h (by simp)
      · rw [hf] at h
        simp only [Option.some.injEq, Prod.mk.injEq] at h
        exact h.2.1 ▸ findPC_le9 cs pre' d'' post' hf
    · rw [hm] at h
      simp only [Option.some.injEq, Prod.mk.injEq] at h
      exact h.2.1 ▸ pcMatchAt_le9 _ d' len hm

/-! ## C4 -/

/-- C4 counterexample: the claim says every whitespace-only input parses to
the all-zero outcome, but `parseNotation(" ")` has battersFaced = 1 and
atBats = 1 (the emptiness check runs before the trim). -/
theorem spec_C4_counterexample :
    parseCell (chars (" ")) ≠ zeroStats
      ∧ (parseCell (chars (" "))).BF = 1
      ∧ (parseCell (chars (" "))).AB = 1 := by
  refine ⟨?_, by decide, by decide⟩
  decide

theorem dropWhile_allTrue {α : Type} (p : α → Bool) :
    ∀ (l : List α), (∀ c ∈ l, p c = true) → l.dropWhile p = []
  | [], _ => rfl
  | c :: cs, h => by
    rw [List.dropWhile_cons, if_pos (h c (by simp))]
    exact dropWhile_allTrue p cs fun x hx => h x (by simp [hx])

theorem trimJS_allWS (l : List Char) (h : ∀ c ∈ l, isJSWhitespace c = true) :
    trimJS l = [] := by
  unfold trimJS
  rw [dropWhile_allTrue _ l h]
  rfl

theorem toUpperJS_ws (c : Char) (h : isJSWhitespace c = true) : toUpperJS c = c := by
  simp only [isJSWhitespace, Bool.or_eq_true, decide_eq_true_eq] at h
  unfold toUpperJS
  rw [if_neg]
  omega

/-- C4 (amended): only the genuinely empty input is caught by the
emptiness check and returns the all-zero outcome; a nonempty input made
only of whitespace slips past the check (which precedes the trim) and
yields battersFaced = 1 and atBats = 1 with every other counter 0, every
flag false, and fielderPosition null. -/
theorem spec_C4 :
    parseCell [] = zeroStats
    ∧ ∀ s : List Char, s ≠ [] → (∀ c ∈ s, isJSWhitespace c = true) →
        parseCell s = { zeroStats with BF := 1, AB := 1 } := by
  refine ⟨rfl, fun s hne hws => ?_⟩
  have hmap : ∀ l : List Char, (∀ c ∈ l, isJSWhitespace c = true) →
      List.map toUpperJS l = l := fun l => by
    induction l with
    | nil => intro _; rfl
    | cons c cs ih =>
      intro hl
      rw [List.map_cons, toUpperJS_ws c (hl c (by simp)),
        ih fun x hx => hl x (by simp [hx])]
  have hv : procVal s = [] := by
    unfold procVal
    rw [hmap s hws]
    exact trimJS_allWS s hws
  rw [parseCell, if_neg hne]
  simp only [hv]
  decide

/-- C4 witness: the amended statement applied at the one-space input. -/
theorem spec_C4_witness :
    parseCell (chars (" ")) = { zeroStats with BF := 1, AB := 1 } :=
  spec_C4.2 (chars (" ")) (by decide) (by decide)

/-! ## C5 -/

/-- C5 counterexample: the claim says outs set by a sacrifice survive the
TP/DP/OUT cascade, but `parseNotation("SF DP")` records 2 outs (the DP
branch assigns unconditionally), not the sacrifice's 1. -/
theorem spec_C5_counterexample :
    (parseCell (chars ("SF DP"))).outs = 2 ∧ (parseCell (chars ("SF DP"))).outs ≠ 1 := by
  constructor
  · decide
  · decide

/-- C5 (amended): only the single-out branch of the cascade (`OUT` or a
strikeout) is guarded by `outs === 0` and therefore preserves outs already
set by SF/SH/FC-OUT; the TP and DP branches assign 3 resp. 2 outs
unconditionally, overriding any sacrifice or fielder's-choice out. -/
theorem spec_C5 (s : List Char) (hBF : (parseCell s).BF = 1) :
    (inStr (chars ("TP")) (procVal s) = true →
      (parseCell s).outs = 3 + (if inStr (chars ("CS")) (procVal s) = true then 1 else 0))
  ∧ (inStr (chars ("TP")) (procVal s) = false →
     inStr (chars ("DP")) (procVal s) = true →
      (parseCell s).outs = 2 + (if inStr (chars ("CS")) (procVal s) = true then 1 else 0))
  ∧ (inStr (chars ("TP")) (procVal s) = false →
     inStr (chars ("DP")) (procVal s) = false →
     (inStr (chars ("SF")) (procVal s) = true ∨ inStr (chars ("SH")) (procVal s) = true
       ∨ (inStr (chars ("FC")) (procVal s) = true
            ∧ (inStr (chars ("FC OUT")) (procVal s) = true
               ∨ inStr (chars ("FCOUT")) (procVal s) = true))) →
      (parseCell s).outs = 1 + (if inStr (chars ("CS")) (procVal s) = true then 1 else 0)) := by
  obtain ⟨pc, ir, heq⟩ := parseCell_cases s hBF
  rw [heq]
  refine ⟨fun hTP => ?_, fun hTP hDP => ?_, fun hTP hDP hsac => ?_⟩
  · simp only [parseBody, hTP]
    simp
  · simp only [parseBody, hTP, hDP]
    simp
  · have houts2 :
        (if inStr (chars ("SF")) (procVal s) || inStr (chars ("SH")) (procVal s) then 1
         else if inStr (chars ("FC")) (procVal s)
                   && (inStr (chars ("FC OUT")) (procVal s) || inStr (chars ("FCOUT")) (procVal s))
              then 1 else (0 : Nat)) = 1 := by
      rcases hsac with h | h | ⟨h1, h2⟩
      · simp [h]
      · simp [h]
      · rcases h2 with h2 | h2 <;> simp [h1, h2]
    simp only [parseBody, hTP, hDP]
    simp only [Bool.false_eq_true, if_false]
    rw [houts2]
    simp

/-- C5 witness: amended statement applied at "SF OUT" (the single-out
branch preserves the sacrifice's out) and at "SF DP" (the DP branch
overrides it). -/
theorem spec_C5_witness :
    (parseCell (chars ("SF OUT"))).outs
        = 1 + (if inStr (chars ("CS")) (procVal (chars ("SF OUT"))) = true then 1 else 0)
    ∧ (parseCell (chars ("SF DP"))).outs
        = 2 + (if inStr (chars ("CS")) (procVal (chars ("SF DP"))) = true then 1 else 0) :=
  ⟨(spec_C5 (chars ("SF OUT")) (by decide)).2.2 (by decide) (by decide) (Or.inl (by decide)),
   (spec_C5 (chars ("SF DP")) (by decide)).2.1 (by decide) (by decide)⟩

/-! ## C6 -/

/-- C6: `parseNotation("K PC2")` is a combined cell: strikeout, one out,
an at-bat and a batter faced, plus the pitching-change fields. -/
theorem spec_C6 :
    (parseCell (chars ("K PC2"))).K = 1
    ∧ (parseCell (chars ("K PC2"))).outs = 1
    ∧ (parseCell (chars ("K PC2"))).AB = 1
    ∧ (parseCell (chars ("K PC2"))).BF = 1
    ∧ (parseCell (chars ("K PC2"))).isPitcherChange = true
    ∧ (parseCell (chars ("K PC2"))).inheritedRunners = 2 := by
  refine ⟨?_, ?_, ?_, ?_, ?_, ?_⟩ <;> decide

/-! ## C7 -/

/-- C7 counterexample: the pitching-change regex accepts any digit, so
`parseNotation("PC7")` yields inheritedRunners = 7, above the 0-3 range
the claim asserts. -/
theorem spec_C7_counterexample :
    (parseCell (chars ("PC7"))).inheritedRunners = 7
    ∧ 3 < (parseCell (chars ("PC7"))).inheritedRunners := by
  constructor
  · decide
  · decide

/-- C7 (amended): the PC token is "PC" followed by any single digit 0-9
(optionally bracketed), so inheritedRunners always lies in 0..9 (not 0..3)
and is 0 when no PC token occurs. -/
theorem spec_C7 (s : List Char) :
    (parseCell s).inheritedRunners ≤ 9
    ∧ (findPC (procVal s) = none → (parseCell s).inheritedRunners = 0) := by
  by_cases hs : s = []
  · subst hs
    exact ⟨by decide, fun _ => by decide⟩
  · rcases hfp : findPC (procVal s) with _ | ⟨pre, d, post⟩
    · have : parseCell s = parseBody (procVal s) false 0 := by
        rw [parseCell, if_neg hs]
        simp only [hfp]
      rw [this, parseBody_ir]
      exact ⟨by omega, fun _ => rfl⟩
    · have hd : d ≤ 9 := findPC_le9 _ _ _ _ hfp
      by_cases hst : trimJS (pre ++ post) = []
      · have hcell : parseCell s = { zeroStats with isPitcherChange := true, inheritedRunners := d } := by
          rw [parseCell, if_neg hs]
          simp only [hfp, hst, if_pos]
        rw [hcell]
        exact ⟨hd, fun hnone => Option.noConfusion hnone⟩
      · have hcell : parseCell s = parseBody (procVal s) true d := by
          rw [parseCell, if_neg hs]
          simp only [hfp, hst]
          simp
        rw [hcell, parseBody_ir]
        exact ⟨hd, fun hnone => Option.noConfusion hnone⟩

/-- C7 witness: the no-PC-token clause applied at "OUT". -/
theorem spec_C7_witness : (parseCell (chars ("OUT"))).inheritedRunners = 0 :=
  (spec_C7 (chars ("OUT"))).2 (by decide)

/-! ## C8 -/

/-- C8: innings pitched equal the clamped out count's whole innings plus
.00/.33/.67 per the remainder; the listed concrete values hold and
negative outs clamp to 0.00. -/
theorem spec_C8 (outs : Int) :
    calculateIP outs =
      ((max outs 0 / 3 : Int) : ℚ)
        + (if max outs 0 % 3 = 1 then (33 : ℚ) / 100
           else if max outs 0 % 3 = 2 then (67 : ℚ) / 100 else 0)
    ∧ (outs < 0 → calculateIP outs = 0)
    ∧ calculateIP 0 = 0
    ∧ calculateIP 1 = 33 / 100
    ∧ calculateIP 2 = 67 / 100
    ∧ calculateIP 3 = 1
    ∧ calculateIP 4 = 133 / 100 := by
  have hmax : (if outs < 0 then 0 else outs) = max outs 0 := by
    rcases lt_or_le outs 0 with h | h
    · rw [if_pos h, max_eq_right h.le]
    · rw [if_neg (not_lt.mpr h), max_eq_left h]
  refine ⟨?_, fun hneg => ?_, ?_, ?_, ?_, ?_, ?_⟩
  · simp only [calculateIP, hmax]
  · have h0 : max outs 0 = 0 := max_eq_right hneg.le
    simp only [calculateIP, hmax, h0]
    norm_num
  · norm_num [calculateIP]
  · norm_num [calculateIP]
  · norm_num [calculateIP]
  · norm_num [calculateIP]
  · norm_num [calculateIP]

/-- C8 witness: the negative-clamp clause applied at -5. -/
theorem spec_C8_witness : calculateIP (-5) = 0 :=
  (spec_C8 (-5)).2.1 (by norm_num)

/-! ## C9 -/

/-- C9: the legacy errorOccurred flag is set only when no E-with-digit
token matched and the bare letter E occurs as an isolated token of the
uppercased, trimmed input (exactly "E", containing " E ", starting with
"E ", or ending with " E"). -/
theorem spec_C9 (s : List Char) (hE : (parseCell s).E = true) :
    findE (procVal s) = none
    ∧ (procVal s = chars ("E")
       ∨ inStr (chars (" E ")) (procVal s) = true
       ∨ startsWithJS (chars ("E ")) (procVal s) = true
       ∨ endsWithJS (chars (" E")) (procVal s) = true) := by
  have hBF : (parseCell s).BF = 1 := by
    by_cases hs : s = []
    · rw [hs] at hE
      exact absurd hE (by decide)
    · rcases hfp : findPC (procVal s) with _ | ⟨pre, d, post⟩
      · rw [parseCell, if_neg hs]
        simp only [hfp]
        simp [parseBody_BF]
      · by_cases hst : trimJS (pre ++ post) = []
        · exfalso
          rw [parseCell, if_neg hs] at hE
          simp only [hfp, hst, if_pos] at hE
          simp [zeroStats] at hE
        · rw [parseCell, if_neg hs]
          simp only [hfp, hst]
          simp [parseBody_BF]
  obtain ⟨pc, ir, heq⟩ := parseCell_cases s hBF
  rw [heq, parseBody_E, Bool.and_eq_true, Bool.or_eq_true] at hE
  obtain ⟨h1, h2⟩ := hE
  refine ⟨Option.isNone_iff_eq_none.mp h1, ?_⟩
  rcases h2 with h3 | h3
  · exact Or.inl (of_decide_eq_true h3)
  · rw [Bool.and_eq_true, Bool.or_eq_true, Bool.or_eq_true] at h3
    obtain ⟨-, h4⟩ := h3
    rcases h4 with (h5 | h5) | h5
    · exact Or.inr (Or.inl h5)
    · exact Or.inr (Or.inr (Or.inl h5))
    · exact Or.inr (Or.inr (Or.inr h5))

/-- C9 witness: applied at "HR E" (isolated trailing E, no E-digit). -/
theorem spec_C9_witness :
    findE (procVal (chars ("HR E"))) = none
    ∧ (procVal (chars ("HR E")) = chars ("E")
       ∨ inStr (chars (" E ")) (procVal (chars ("HR E"))) = true
       ∨ startsWithJS (chars ("E ")) (procVal (chars ("HR E"))) = true
       ∨ endsWithJS (chars (" E")) (procVal (chars ("HR E"))) = true) :=
  spec_C9 (chars ("HR E")) (by decide)

/-! ## Accumulator-map facts -/

theorem getPS_pitching (m : PMap) (n : String) : (getPS m n).pitching = pitchPart m n := by
  unfold getPS pitchPart
  cases m n <;> rfl

theorem getPS_hitting (m : PMap) (n : String) : (getPS m n).hitting = hitPart m n := by
  unfold getPS hitPart
  cases m n <;> rfl

theorem pitchPart_setPS (m : PMap) (n : String) (v : PlayerStats) (q : String) :
    pitchPart (setPS m n v) q = if q = n then v.pitching else pitchPart m q := by
  unfold pitchPart setPS
  by_cases h : q = n <;> simp [h]

theorem hitPart_setPS (m : PMap) (n : String) (v : PlayerStats) (q : String) :
    hitPart (setPS m n v) q = if q = n then v.hitting else hitPart m q := by
  unfold hitPart setPS
  by_cases h : q = n <;> simp [h]

/-- Writes that keep the pitching sub-record intact keep every `pitchPart`. -/
theorem pitchPart_setPS_preserve (m : PMap) (n : String) (v : PlayerStats) (q : String)
    (h : v.pitching = pitchPart m n) :
    pitchPart (setPS m n v) q = pitchPart m q := by
  rw [pitchPart_setPS]
  by_cases hq : q = n
  · subst hq
    rw [if_pos rfl, h]
  · rw [if_neg hq]

/-- Writes that keep the hitting sub-record intact keep every `hitPart`. -/
theorem hitPart_setPS_preserve (m : PMap) (n : String) (v : PlayerStats) (q : String)
    (h : v.hitting = hitPart m n) :
    hitPart (setPS m n v) q = hitPart m q := by
  rw [hitPart_setPS]
  by_cases hq : q = n
  · subst hq
    rw [if_pos rfl, h]
  · rw [if_neg hq]

/-! ### `ensureBatter` -/

theorem pitchPart_ensureBatter (m : PMap) (b q : String) :
    pitchPart (ensureBatter m b) q = pitchPart m q := by
  unfold ensureBatter
  exact pitchPart_setPS_preserve _ _ _ _ (getPS_pitching m b)

theorem hitPart_ensureBatter_self (m : PMap) (b : String) :
    hitPart (ensureBatter m b) b = some ((hitPart m b).getD hit0) := by
  unfold ensureBatter
  rw [hitPart_setPS, if_pos rfl]
  simp [getPS_hitting]

/-! ### `ensurePitcher` -/

theorem pitchPart_ensurePitcher_self (m : PMap) (p : String) :
    pitchPart (ensurePitcher m (some p)) p = some ((pitchPart m p).getD pit0) := by
  unfold ensurePitcher
  rw [pitchPart_setPS, if_pos rfl]
  simp [getPS_pitching]

theorem pitchPart_ensurePitcher_ne (m : PMap) (p q : String) (h : q ≠ p) :
    pitchPart (ensurePitcher m (some p)) q = pitchPart m q := by
  unfold ensurePitcher
  rw [pitchPart_setPS, if_neg h]

theorem hitPart_ensurePitcher (m : PMap) (ap : Option String) (q : String) :
    hitPart (ensurePitcher m ap) q = hitPart m q := by
  cases ap with
  | none => rfl
  | some p =>
    unfold ensurePitcher
    exact hitPart_setPS_preserve _ _ _ _ (getPS_hitting m p)

/-! ### `applyHitting` -/

theorem pitchPart_applyHitting (m : PMap) (b : String) (s : Stats) (q : String) :
    pitchPart (applyHitting m b s) q = pitchPart m q := by
  unfold applyHitting
  exact pitchPart_setPS_preserve _ _ _ _ (getPS_pitching m b)

theorem hitPart_applyHitting_self (m : PMap) (b : String) (s : Stats) :
    hitPart (applyHitting m b s) b = some (hittingAdd ((hitPart m b).getD hit0) s) := by
  unfold applyHitting
  rw [hitPart_setPS, if_pos rfl]
  simp [getPS_hitting]

theorem hitPart_applyHitting_ne (m : PMap) (b : String) (s : Stats) (q : String) (hq : q ≠ b) :
    hitPart (applyHitting m b s) q = hitPart m q := by
  unfold applyHitting
  rw [hitPart_setPS, if_neg hq]

theorem hitPart_ensureBatter_ne (m : PMap) (b q : String) (hq : q ≠ b) :
    hitPart (ensureBatter m b) q = hitPart m q := by
  unfold ensureBatter
  rw [hitPart_setPS, if_neg hq]

/-! ### `applyPitchingAndRuns` -/

theorem pitchAdd_R (pit : Pitching) (s : Stats) : (pitchAdd pit s).R = pit.R := rfl

theorem pitchPart_update_self (m : PMap) (p : String) (x : Option Pitching)
    (h : Option Hitting) (fl : Option Fielding) :
    pitchPart (setPS m p ⟨x, h, fl⟩) p = x := by
  rw [pitchPart_setPS, if_pos rfl]

theorem pitchPart_update_ne (m : PMap) (p q : String) (x : Option Pitching)
    (h : Option Hitting) (fl : Option Fielding) (hq : q ≠ p) :
    pitchPart (setPS m p ⟨x, h, fl⟩) q = pitchPart m q := by
  rw [pitchPart_setPS, if_neg hq]

theorem hitPart_update_self (m : PMap) (p : String) (x : Option Pitching)
    (h : Option Hitting) (fl : Option Fielding) :
    hitPart (setPS m p ⟨x, h, fl⟩) p = h := by
  rw [hitPart_setPS, if_pos rfl]

theorem hitPart_update_ne (m : PMap) (p q : String) (x : Option Pitching)
    (h : Option Hitting) (fl : Option Fielding) (hq : q ≠ p) :
    hitPart (setPS m p ⟨x, h, fl⟩) q = hitPart m q := by
  rw [hitPart_setPS, if_neg hq]

/-- A write that stores back the entry's own hitting sub-record preserves
every `hitPart`. -/
theorem hitPart_update_keep (m : PMap) (n : String) (x : Option Pitching)
    (fl : Option Fielding) (q : String) :
    hitPart (setPS m n ⟨x, (getPS m n).hitting, fl⟩) q = hitPart m q :=
  hitPart_setPS_preserve _ _ _ _ (getPS_hitting m n)

/-- A write that stores back the entry's own pitching sub-record preserves
every `pitchPart`. -/
theorem pitchPart_keep (m : PMap) (n : String) (hi : Option Hitting)
    (fl : Option Fielding) (q : String) :
    pitchPart (setPS m n ⟨(getPS m n).pitching, hi, fl⟩) q = pitchPart m q :=
  pitchPart_setPS_preserve _ _ _ _ (getPS_pitching m n)

/-- The updated inherited-runner count returned by the run-attribution
block: decremented by `min stats.R inheritedRunners` exactly when both are
positive. -/
theorem aPR_snd (m : PMap) (p : String) (pp : Option String) (ir : Nat) (s : Stats)
    (pit : Pitching) (hm : pitchPart m p = some pit) :
    (applyPitchingAndRuns m (some p) pp ir s).2 =
      if 0 < s.R then (if 0 < ir then ir - min s.R ir else ir) else ir := by
  unfold applyPitchingAndRuns
  simp only [hm]
  by_cases h1 : 0 < s.R <;> by_cases h2 : 0 < ir <;> simp [h1, h2]

/-- Every non-`R` projection of the active pitcher's record after the
block equals its value right after the counting increments. -/
theorem aPR_proj {A : Type} (f : Pitching → A) (hf : ∀ rec n, f { rec with R := n } = f rec)
    (m : PMap) (p : String) (pp : Option String) (ir : Nat) (s : Stats) (pit : Pitching)
    (hm : pitchPart m p = some pit) :
    (pitchPart (applyPitchingAndRuns m (some p) pp ir s).1 p).map f = some (f (pitchAdd pit s)) := by
  unfold applyPitchingAndRuns
  simp only [hm]
  by_cases h1 : 0 < s.R
  · by_cases h2 : 0 < ir
    · rw [if_pos h1, if_pos h2]
      cases hpp : pp with
      | none =>
        simp [pitchPart_update_self, hf]
      | some q =>
        by_cases hq : q = p
        · subst hq
          simp [pitchPart_update_self, hf]
        · have hne : pitchPart (setPS m p ⟨some (pitchAdd pit s), (getPS m p).hitting,
              (getPS m p).fielding⟩) q = pitchPart m q :=
            pitchPart_update_ne _ _ _ _ _ _ hq
          simp only [hne]
          rcases hq2 : pitchPart m q with _ | ⟨qpit⟩
          · simp [pitchPart_update_self, hf]
          · have hq' : p ≠ q := Ne.symm hq
            simp [pitchPart_update_ne, pitchPart_update_self, hf, hq, hq']
    · rw [if_pos h1, if_neg h2]
      simp [pitchPart_update_self, hf]
  · rw [if_neg h1]
    simp [pitchPart_update_self]

/-- The active pitcher's run total after the block: increased by
`stats.R - min stats.R inheritedRunners` when inherited runners remain,
by the full `stats.R` otherwise (requires the previous pitcher to be a
different identity, since a same-name previous pitcher would absorb the
credited share into the same record). -/
theorem aPR_active_R (m : PMap) (p : String) (pp : Option String) (ir : Nat) (s : Stats)
    (pit : Pitching) (hm : pitchPart m p = some pit) (h1 : 0 < s.R) (hpp : pp ≠ some p) :
    (pitchPart (applyPitchingAndRuns m (some p) pp ir s).1 p).map Pitching.R =
      some (pit.R + (if 0 < ir then s.R - min s.R ir else s.R)) := by
  unfold applyPitchingAndRuns
  simp only [hm]
  rw [if_pos h1]
  by_cases h2 : 0 < ir
  · rw [if_pos h2]
    cases hpp2 : pp with
    | none =>
      simp [pitchPart_update_self, pitchAdd_R, h2]
    | some q =>
      have hq : q ≠ p := by
        intro h
        exact hpp (by rw [hpp2, h])
      have hne : pitchPart (setPS m p ⟨some (pitchAdd pit s), (getPS m p).hitting,
          (getPS m p).fielding⟩) q = pitchPart m q :=
        pitchPart_update_ne _ _ _ _ _ _ hq
      simp only [hne]
      rcases hq2 : pitchPart m q with _ | ⟨qpit⟩
      · simp [pitchPart_update_self, pitchAdd_R, h2]
      · have hq' : p ≠ q := Ne.symm hq
        simp [pitchPart_update_ne, pitchPart_update_self, pitchAdd_R, h2, hq, hq']
  · rw [if_neg h2]
    simp [pitchPart_update_self, pitchAdd_R, h2]

/-- The previous pitcher's run total after the block: increased by exactly
`min stats.R inheritedRunners` when a run scored with inherited runners
outstanding and the previous pitcher exists with a pitching record. -/
theorem aPR_prev_R (m : PMap) (p q : String) (ir : Nat) (s : Stats)
    (pit qpit : Pitching) (hm : pitchPart m p = some pit)
    (h1 : 0 < s.R) (h2 : 0 < ir) (hq : q ≠ p) (hqrec : pitchPart m q = some qpit) :
    (pitchPart (applyPitchingAndRuns m (some p) (some q) ir s).1 q).map Pitching.R =
      some (qpit.R + min s.R ir) := by
  unfold applyPitchingAndRuns
  simp only [hm]
  rw [if_pos h1, if_pos h2]
  have hne : pitchPart (setPS m p ⟨some (pitchAdd pit s), (getPS m p).hitting,
      (getPS m p).fielding⟩) q = pitchPart m q :=
    pitchPart_update_ne _ _ _ _ _ _ hq
  simp only [hne, hqrec]
  have hq' : p ≠ q := Ne.symm hq
  simp [pitchPart_update_ne, pitchPart_update_self, hq, hq']

/-- Pitchers other than the active and previous pitcher are untouched by
the block. -/
theorem aPR_other (m : PMap) (p : String) (pp : Option String) (ir : Nat) (s : Stats)
    (pit : Pitching) (hm : pitchPart m p = some pit) (q : String)
    (hq : q ≠ p) (hppq : pp ≠ some q) :
    pitchPart (applyPitchingAndRuns m (some p) pp ir s).1 q = pitchPart m q := by
  unfold applyPitchingAndRuns
  simp only [hm]
  by_cases h1 : 0 < s.R
  · by_cases h2 : 0 < ir
    · rw [if_pos h1, if_pos h2]
      cases hpp2 : pp with
      | none =>
        simp [pitchPart_update_ne, hq]
      | some q' =>
        have hq'q : q ≠ q' := by
          intro h
          exact hppq (by rw [hpp2, h])
        rcases hq2 : pitchPart (setPS m p ⟨some (pitchAdd pit s), (getPS m p).hitting,
            (getPS m p).fielding⟩) q' with _ | ⟨qpit⟩
        · simp only [hq2]
          simp [pitchPart_update_ne, hq]
        · simp only [hq2]
          simp [pitchPart_update_ne, hq, hq'q]
    · rw [if_pos h1, if_neg h2]
      simp [pitchPart_update_ne, hq]
  · rw [if_neg h1]
    simp [pitchPart_update_ne, hq]

/-- With no inherited runners outstanding, only the active pitcher's
record changes. -/
theorem aPR_other_ir0 (m : PMap) (p : String) (pp : Option String) (ir : Nat) (s : Stats)
    (pit : Pitching) (hm : pitchPart m p = some pit) (q : String)
    (hq : q ≠ p) (h2 : ¬0 < ir) :
    pitchPart (applyPitchingAndRuns m (some p) pp ir s).1 q = pitchPart m q := by
  unfold applyPitchingAndRuns
  simp only [hm]
  by_cases h1 : 0 < s.R
  · rw [if_pos h1, if_neg h2]
    simp [pitchPart_update_ne, hq]
  · rw [if_neg h1]
    simp [pitchPart_update_ne, hq]

/-- The run-attribution block never touches hitting sub-records. -/
theorem hitPart_aPR (m : PMap) (ap pp : Option String) (ir : Nat) (s : Stats) (q : String) :
    hitPart (applyPitchingAndRuns m ap pp ir s).1 q = hitPart m q := by
  cases ap with
  | none => rfl
  | some p =>
    unfold applyPitchingAndRuns
    rcases hmp : pitchPart m p with _ | ⟨pit⟩
    · simp only [hmp]
    · simp only [hmp]
      by_cases h1 : 0 < s.R
      · by_cases h2 : 0 < ir
        · rw [if_pos h1, if_pos h2]
          cases hpp : pp with
          | none =>
            simp [hitPart_update_keep]
          | some q' =>
            rcases hq2 : pitchPart (setPS m p ⟨some (pitchAdd pit s), (getPS m p).hitting,
                (getPS m p).fielding⟩) q' with _ | ⟨qpit⟩
            · simp only [hq2]
              simp [hitPart_update_keep]
            · simp only [hq2]
              simp [hitPart_update_keep]
        · rw [if_pos h1, if_neg h2]
          simp [hitPart_update_keep]
      · rw [if_neg h1]
        simp [hitPart_update_keep]

/-! ### The fielding-attribution stages -/

theorem pitchPart_bumpNP (m : PMap) (f q : String) :
    pitchPart (bumpNP m f) q = pitchPart m q := by
  unfold bumpNP
  exact pitchPart_setPS_preserve _ _ _ _ (getPS_pitching m f)

theorem pitchPart_bumpE (m : PMap) (f q : String) :
    pitchPart (bumpE m f) q = pitchPart m q := by
  unfold bumpE
  exact pitchPart_setPS_preserve _ _ _ _ (getPS_pitching m f)

theorem pitchPart_bumpSB (m : PMap) (f q : String) :
    pitchPart (bumpSB m f) q = pitchPart m q := by
  unfold bumpSB
  exact pitchPart_setPS_preserve _ _ _ _ (getPS_pitching m f)

theorem pitchPart_bumpROB (m : PMap) (b q : String) :
    pitchPart (bumpROB m b) q = pitchPart m q := by
  unfold bumpROB
  exact pitchPart_setPS_preserve _ _ _ _ (getPS_pitching m b)

theorem hitPart_bumpNP (m : PMap) (f q : String) :
    hitPart (bumpNP m f) q = hitPart m q := by
  unfold bumpNP
  exact hitPart_setPS_preserve _ _ _ _ (getPS_hitting m f)

theorem hitPart_bumpE (m : PMap) (f q : String) :
    hitPart (bumpE m f) q = hitPart m q := by
  unfold bumpE
  exact hitPart_setPS_preserve _ _ _ _ (getPS_hitting m f)

theorem hitPart_bumpSB (m : PMap) (f q : String) :
    hitPart (bumpSB m f) q = hitPart m q := by
  unfold bumpSB
  exact hitPart_setPS_preserve _ _ _ _ (getPS_hitting m f)

/-- `bumpROB` changes only the `ROB` field of the batter's hitting record:
`ROB`-blind projections are preserved as long as the batter's record
exists whenever it is the record being read. -/
theorem hitProj_bumpROB {A : Type} (f : Hitting → A)
    (hf : ∀ h n, f { h with ROB := n } = f h)
    (m : PMap) (b q : String)
    (hq : (hitPart m b).isSome = true ∨ q ≠ b) :
    (hitPart (bumpROB m b) q).map f = (hitPart m q).map f := by
  unfold bumpROB
  by_cases hqb : q = b
  · subst hqb
    rw [hitPart_setPS, if_pos rfl]
    rcases hq with hq | hq
    · obtain ⟨bh₀, hbh⟩ := Option.isSome_iff_exists.mp hq
      simp only [getPS_hitting, hbh]
      simp [hf]
    · exact absurd rfl hq
  · rw [hitPart_setPS, if_neg hqb]

theorem pitchPart_applyNicePlay (m : PMap) (roster : Roster) (ft : Team) (b : String)
    (s : Stats) (q : String) :
    pitchPart (applyNicePlay m roster ft b s) q = pitchPart m q := by
  unfold applyNicePlay
  by_cases hc : s.isNicePlay = true ∧ s.fielderPosition.getD 0 ≠ 0
  · rw [if_pos hc]
    rcases hfind : findPlayerByPosition roster ft (s.fielderPosition.getD 0) with _ | ⟨fp⟩
    · simp only [hfind]
    · simp only [hfind, pitchPart_bumpROB, pitchPart_bumpNP]
  · rw [if_neg hc]

theorem pitchPart_applyErrorFielding (m : PMap) (roster : Roster) (ft : Team)
    (s : Stats) (q : String) :
    pitchPart (applyErrorFielding m roster ft s) q = pitchPart m q := by
  unfold applyErrorFielding
  by_cases hc : s.isError = true ∧ s.fielderPosition.getD 0 ≠ 0
  · rw [if_pos hc]
    rcases hfind : findPlayerByPosition roster ft (s.fielderPosition.getD 0) with _ | ⟨fp⟩
    · simp only [hfind]
    · simp only [hfind, pitchPart_bumpE]
  · rw [if_neg hc]

theorem pitchPart_applySB (m : PMap) (b : String) (s : Stats) (q : String) :
    pitchPart (applySB m b s) q = pitchPart m q := by
  unfold applySB
  by_cases hc : s.SB = true
  · rw [if_pos hc, pitchPart_bumpSB]
  · rw [if_neg hc]

theorem hitPart_applyErrorFielding (m : PMap) (roster : Roster) (ft : Team)
    (s : Stats) (q : String) :
    hitPart (applyErrorFielding m roster ft s) q = hitPart m q := by
  unfold applyErrorFielding
  by_cases hc : s.isError = true ∧ s.fielderPosition.getD 0 ≠ 0
  · rw [if_pos hc]
    rcases hfind : findPlayerByPosition roster ft (s.fielderPosition.getD 0) with _ | ⟨fp⟩
    · simp only [hfind]
    · simp only [hfind, hitPart_bumpE]
  · rw [if_neg hc]

theorem hitPart_applySB (m : PMap) (b : String) (s : Stats) (q : String) :
    hitPart (applySB m b s) q = hitPart m q := by
  unfold applySB
  by_cases hc : s.SB = true
  · rw [if_pos hc, hitPart_bumpSB]
  · rw [if_neg hc]

/-- `ROB`-blind hitting projections survive the nice-play stage. -/
theorem hitProj_applyNicePlay {A : Type} (f : Hitting → A)
    (hf : ∀ h n, f { h with ROB := n } = f h)
    (m : PMap) (roster : Roster) (ft : Team) (b : String) (s : Stats) (q : String)
    (hq : (hitPart m b).isSome = true ∨ q ≠ b) :
    (hitPart (applyNicePlay m roster ft b s) q).map f = (hitPart m q).map f := by
  unfold applyNicePlay
  by_cases hc : s.isNicePlay = true ∧ s.fielderPosition.getD 0 ≠ 0
  · rw [if_pos hc]
    rcases hfind : findPlayerByPosition roster ft (s.fielderPosition.getD 0) with _ | ⟨fp⟩
    · simp only [hfind]
    · simp only [hfind]
      rw [hitProj_bumpROB f hf _ b q (by rw [hitPart_bumpNP]; exact hq), hitPart_bumpNP]
  · rw [if_neg hc]

/-! ### Cell processing -/

theorem pitcherHandoff_playerStats (tl : List (Option String)) (irNew : Nat) (st : ReplayState) :
    (pitcherHandoff tl irNew st).playerStats = st.playerStats := rfl

theorem processCell_standalone (roster : Roster) (bt : Team) (tl : List (Option String))
    (row : Nat) (v : List Char) (st : ReplayState)
    (hcond : (parseCell v).isPitcherChange = true ∧ (parseCell v).BF = 0) :
    processCell roster bt tl row v st = pitcherHandoff tl (parseCell v).inheritedRunners st := by
  unfold processCell
  rw [if_pos hcond]

theorem processCell_atBat (roster : Roster) (bt : Team) (tl : List (Option String))
    (row : Nat) (v : List Char) (st : ReplayState) (b : String)
    (hcond : ¬((parseCell v).isPitcherChange = true ∧ (parseCell v).BF = 0))
    (hbat : batterFor roster bt row = some b) :
    processCell roster bt tl row v st = processCellBody roster bt tl v st b := by
  unfold processCell
  rw [if_neg hcond, hbat]

/-- The accumulator after a processed at-bat cell is the stage pipeline
applied to the entry accumulator (identical whether or not the cell also
carries a pitcher change, since the handoff touches no player records). -/
theorem processCellBody_playerStats (roster : Roster) (bt : Team) (tl : List (Option String))
    (v : List Char) (st : ReplayState) (b : String) :
    (processCellBody roster bt tl v st b).playerStats =
      applySB (applyErrorFielding (applyNicePlay
        (applyPitchingAndRuns
          (applyHitting (ensurePitcher (ensureBatter st.playerStats b) st.activePitcher) b (parseCell v))
          st.activePitcher st.previousPitcher st.inheritedRunners (parseCell v)).1
        roster bt.opp b (parseCell v)) roster bt.opp (parseCell v)) b (parseCell v) := by
  simp only [processCellBody]
  split <;> rfl

/-- Without a pitcher change in the cell, the post-cell inherited-runner
count is the one produced by the run-attribution block. -/
theorem processCellBody_ir (roster : Roster) (bt : Team) (tl : List (Option String))
    (v : List Char) (st : ReplayState) (b : String)
    (hpc : (parseCell v).isPitcherChange = false) :
    (processCellBody roster bt tl v st b).inheritedRunners =
      (applyPitchingAndRuns
        (applyHitting (ensurePitcher (ensureBatter st.playerStats b) st.activePitcher) b (parseCell v))
        st.activePitcher st.previousPitcher st.inheritedRunners (parseCell v)).2 := by
  simp only [processCellBody]
  rw [if_neg (by rw [hpc]; exact Bool.false_ne_true)]

/-- With a pitcher change in the cell, the handoff fields of the post-cell
state (the attribution already happened on the pre-handoff pitcher). -/
theorem processCellBody_handoff (roster : Roster) (bt : Team) (tl : List (Option String))
    (v : List Char) (st : ReplayState) (b : String)
    (hpc : (parseCell v).isPitcherChange = true) :
    (processCellBody roster bt tl v st b).previousPitcher = st.activePitcher
    ∧ (processCellBody roster bt tl v st b).pitcherIndex = st.pitcherIndex + 1
    ∧ (processCellBody roster bt tl v st b).activePitcher = tlook tl (st.pitcherIndex + 1)
    ∧ (processCellBody roster bt tl v st b).inheritedRunners = (parseCell v).inheritedRunners := by
  simp only [processCellBody]
  rw [if_pos hpc]
  exact ⟨rfl, rfl, rfl, rfl⟩

/-- Without a pitcher change, the pitcher bookkeeping fields are untouched
by a processed at-bat cell. -/
theorem processCellBody_noHandoff (roster : Roster) (bt : Team) (tl : List (Option String))
    (v : List Char) (st : ReplayState) (b : String)
    (hpc : (parseCell v).isPitcherChange = false) :
    (processCellBody roster bt tl v st b).previousPitcher = st.previousPitcher
    ∧ (processCellBody roster bt tl v st b).pitcherIndex = st.pitcherIndex
    ∧ (processCellBody roster bt tl v st b).activePitcher = st.activePitcher := by
  simp only [processCellBody]
  rw [if_neg (by rw [hpc]; exact Bool.false_ne_true)]
  exact ⟨rfl, rfl, rfl⟩

/-! ## C3 -/

theorem processColumns_IR_zero (roster : Roster) (bt : Team) (tl : List (Option String))
    (grid : List (List (List Char))) :
    ∀ (cols : List Nat) (st : ReplayState), st.inheritedRunners = 0 →
      (processColumns roster bt tl grid cols st).inheritedRunners = 0
  | [], _, h => h
  | c :: cs, st, _ =>
    processColumns_IR_zero roster bt tl grid cs
      (inningBoundaryReset (processInning roster bt tl grid c st)) rfl

/-- C3: every column of the replay ends with the unconditional
`inheritedRunners = 0` reset, so the inherited-runner count computed in
one inning can never influence the processing of any later inning, and
the final replay state always carries `inheritedRunners = 0`. -/
theorem spec_C3 (roster : Roster) (bt : Team) (tl : List (Option String))
    (grid : List (List (List Char))) :
    (∀ (c : Nat) (cs : List Nat) (st : ReplayState),
        processColumns roster bt tl grid (c :: cs) st =
          processColumns roster bt tl grid cs
            (inningBoundaryReset (processInning roster bt tl grid c st)))
    ∧ (∀ st : ReplayState, (inningBoundaryReset st).inheritedRunners = 0)
    ∧ (∀ (st : ReplayState) (n : Nat),
        inningBoundaryReset { st with inheritedRunners := n } = inningBoundaryReset st)
    ∧ (∀ (cs : List Nat) (st : ReplayState) (n : Nat),
        processColumns roster bt tl grid cs
            (inningBoundaryReset { st with inheritedRunners := n }) =
          processColumns roster bt tl grid cs (inningBoundaryReset st))
    ∧ (processTeamAtBats grid roster bt tl).inheritedRunners = 0 := by
  refine ⟨fun c cs st => rfl, fun st => rfl, fun st n => rfl, fun cs st n => rfl, ?_⟩
  exact processColumns_IR_zero roster bt tl grid _ (initState tl) rfl

/-! ## C1 -/

/-- With no inherited runners outstanding the active pitcher absorbs the
whole `stats.R` (no previous-pitcher identity hypothesis is needed, since
the previous-pitcher branch is not taken). -/
theorem aPR_active_R_ir0 (m : PMap) (p : String) (pp : Option String) (ir : Nat) (s : Stats)
    (pit : Pitching) (hm : pitchPart m p = some pit) (h1 : 0 < s.R) (h2 : ¬0 < ir) :
    (pitchPart (applyPitchingAndRuns m (some p) pp ir s).1 p).map Pitching.R =
      some (pit.R + s.R) := by
  unfold applyPitchingAndRuns
  simp only [hm]
  rw [if_pos h1, if_neg h2]
  simp [pitchPart_update_self, pitchAdd_R]

/-- C1: run attribution with inherited runners, at the level of one
processed cell.  With a batter resolved, an active pitcher `p`, and
`runsAllowed > 0`:

* if inherited runners are outstanding, `credited = min(runsAllowed,
  inheritedRunners)` runs go to the previous pitcher's run total (when that
  pitcher exists, differs from `p`, and has a pitching record),
  `runsAllowed - credited` go to `p`, and the inherited-runner count drops
  by `credited` (stated for cells without their own pitcher change, whose
  handoff would overwrite the count afterwards);
* if the count is already zero, all runs go to `p` and every other
  pitching record is untouched. -/
theorem spec_C1 (roster : Roster) (bt : Team) (tl : List (Option String)) (row : Nat)
    (v : List Char) (st : ReplayState) (b p : String)
    (hbat : batterFor roster bt row = some b)
    (hap : st.activePitcher = some p)
    (hR : 0 < (parseCell v).R) :
    (0 < st.inheritedRunners →
      ((parseCell v).isPitcherChange = false →
        (processCell roster bt tl row v st).inheritedRunners
          = st.inheritedRunners - min (parseCell v).R st.inheritedRunners)
      ∧ (∀ q qpit, st.previousPitcher = some q → q ≠ p →
          pitchPart st.playerStats q = some qpit →
          (pitchPart (processCell roster bt tl row v st).playerStats q).map Pitching.R
            = some (qpit.R + min (parseCell v).R st.inheritedRunners))
      ∧ (st.previousPitcher ≠ some p →
          (pitchPart (processCell roster bt tl row v st).playerStats p).map Pitching.R
            = some (((pitchPart st.playerStats p).getD pit0).R
                + ((parseCell v).R - min (parseCell v).R st.inheritedRunners))))
    ∧ (st.inheritedRunners = 0 →
        ((pitchPart (processCell roster bt tl row v st).playerStats p).map Pitching.R
          = some (((pitchPart st.playerStats p).getD pit0).R + (parseCell v).R))
        ∧ (∀ q, q ≠ p →
            pitchPart (processCell roster bt tl row v st).playerStats q
              = pitchPart st.playerStats q)
        ∧ ((parseCell v).isPitcherChange = false →
            (processCell roster bt tl row v st).inheritedRunners = 0)) := by
  have hBF : (parseCell v).BF = 1 := parseCell_BF_of_R v hR
  have hcond : ¬((parseCell v).isPitcherChange = true ∧ (parseCell v).BF = 0) := by
    rintro ⟨-, h0⟩
    rw [hBF] at h0
    exact one_ne_zero h0
  have hcell := processCell_atBat roster bt tl row v st b hcond hbat
  have hps := processCellBody_playerStats roster bt tl v st b
  -- the pitching record seen by the attribution block
  have hm3 : pitchPart
      (applyHitting (ensurePitcher (ensureBatter st.playerStats b) (some p)) b (parseCell v)) p
      = some ((pitchPart st.playerStats p).getD pit0) := by
    rw [pitchPart_applyHitting, pitchPart_ensurePitcher_self, pitchPart_ensureBatter]
  -- any pitchPart after the whole pipeline is the pitchPart after applyPitchingAndRuns
  have hpipe : ∀ q : String,
      pitchPart (processCell roster bt tl row v st).playerStats q =
        pitchPart (applyPitchingAndRuns
          (applyHitting (ensurePitcher (ensureBatter st.playerStats b) (some p)) b (parseCell v))
          (some p) st.previousPitcher st.inheritedRunners (parseCell v)).1 q := by
    intro q
    rw [hcell, hps, pitchPart_applySB, pitchPart_applyErrorFielding, pitchPart_applyNicePlay, hap]
  constructor
  · intro hIR
    refine ⟨fun hpc => ?_, fun q qpit hprev hqp hqrec => ?_, fun hppne => ?_⟩
    · rw [hcell, processCellBody_ir roster bt tl v st b hpc, hap,
        aPR_snd _ _ _ _ _ _ hm3, if_pos hR, if_pos hIR]
    · have hqrec3 : pitchPart
          (applyHitting (ensurePitcher (ensureBatter st.playerStats b) (some p)) b (parseCell v)) q
          = some qpit := by
        rw [pitchPart_applyHitting, pitchPart_ensurePitcher_ne _ _ _ hqp,
          pitchPart_ensureBatter, hqrec]
      rw [hpipe q, hprev]
      exact aPR_prev_R _ _ _ _ _ _ _ hm3 hR hIR hqp hqrec3
    · rw [hpipe p]
      have hact := aPR_active_R _ p st.previousPitcher st.inheritedRunners (parseCell v)
        _ hm3 hR hppne
      rw [hact, if_pos hIR]
  · intro hIR0
    have hIRn : ¬0 < st.inheritedRunners := by omega
    refine ⟨?_, fun q hqp => ?_, fun hpc => ?_⟩
    · rw [hpipe p]
      exact aPR_active_R_ir0 _ _ _ _ _ _ hm3 hR hIRn
    · rw [hpipe q]
      rw [aPR_other_ir0 _ _ _ _ _ _ hm3 q hqp hIRn, pitchPart_applyHitting,
        pitchPart_ensurePitcher_ne _ _ _ hqp, pitchPart_ensureBatter]
    · rw [hcell, processCellBody_ir roster bt tl v st b hpc, hap,
        aPR_snd _ _ _ _ _ _ hm3, if_pos hR, if_neg hIRn]
      exact hIR0

/-- C1 witness: the theorem applied at the concrete mid-inning state of
the witness scenario (reliever B active, previous pitcher A on record, two
inherited runners, cell "1B RBI"), plus the end-to-end conservation run:
replaying the whole scenario grid charges A exactly 2 runs and B none. -/
theorem spec_C1_witness :
    ((processCell wRoster .away wTimeline 2 (chars ("1B RBI")) wState).inheritedRunners
      = 2 - min (parseCell (chars ("1B RBI"))).R 2)
    ∧ ((pitchPart (processCell wRoster .away wTimeline 2 (chars ("1B RBI")) wState).playerStats
          ("A")).map Pitching.R
        = some ({ BF := 1, outs := 0, H := 1, HR := 0, R := 0, BB := 0, K := 0 : Pitching}.R
            + min (parseCell (chars ("1B RBI"))).R 2))
    ∧ ((pitchPart (processCell wRoster .away wTimeline 2 (chars ("1B RBI")) wState).playerStats
          ("B")).map Pitching.R
        = some (((pitchPart wState.playerStats ("B")).getD pit0).R
            + ((parseCell (chars ("1B RBI"))).R - min (parseCell (chars ("1B RBI"))).R 2)))
    ∧ (pitchPart (processTeamAtBats wGrid wRoster .away wTimeline).playerStats ("A")).map Pitching.R
        = some 2
    ∧ (pitchPart (processTeamAtBats wGrid wRoster .away wTimeline).playerStats ("B")).map Pitching.R
        = some 0 := by
  have h := (spec_C1 wRoster .away wTimeline 2 (chars ("1B RBI")) wState ("b2") ("B")
    (by decide) rfl (by decide)).1 (by decide)
  exact ⟨h.1 (by decide),
    h.2.1 ("A") { BF := 1, outs := 0, H := 1, HR := 0, R := 0, BB := 0, K := 0 } rfl
      (by decide) (by decide),
    h.2.2 (by decide), by decide, by decide⟩

/-! ## C2 -/

theorem aPR_none (m : PMap) (pp : Option String) (ir : Nat) (s : Stats) :
    applyPitchingAndRuns m none pp ir s = (m, ir) := rfl

theorem ensurePitcher_none (m : PMap) : ensurePitcher m none = m := rfl

/-- C2: ordering of attribution and handoff in one processed cell.
A standalone pitching-change marker (`battersFaced = 0`) performs only the
handoff — the accumulator is untouched.  A combined cell (an at-bat whose
outcome also carries `isPitcherChange`) first credits the batter's hitting
line and the departing (currently active) pitcher's pitching line with the
cell's event, and only then performs the same handoff (`previousPitcher`
becomes the departing pitcher, the timeline index advances by one, and
`inheritedRunners` is set from the outcome); the incoming pitcher's record
is untouched by the cell. -/
theorem spec_C2 (roster : Roster) (bt : Team) (tl : List (Option String)) (row : Nat)
    (v : List Char) (st : ReplayState) :
    (((parseCell v).isPitcherChange = true ∧ (parseCell v).BF = 0) →
      (processCell roster bt tl row v st).playerStats = st.playerStats
      ∧ (processCell roster bt tl row v st).previousPitcher = st.activePitcher
      ∧ (processCell roster bt tl row v st).pitcherIndex = st.pitcherIndex + 1
      ∧ (processCell roster bt tl row v st).activePitcher = tlook tl (st.pitcherIndex + 1)
      ∧ (processCell roster bt tl row v st).inheritedRunners = (parseCell v).inheritedRunners)
    ∧ (∀ b p : String, (parseCell v).isPitcherChange = true → (parseCell v).BF ≠ 0 →
        batterFor roster bt row = some b → st.activePitcher = some p →
        (processCell roster bt tl row v st).previousPitcher = some p
        ∧ (processCell roster bt tl row v st).pitcherIndex = st.pitcherIndex + 1
        ∧ (processCell roster bt tl row v st).activePitcher = tlook tl (st.pitcherIndex + 1)
        ∧ (processCell roster bt tl row v st).inheritedRunners = (parseCell v).inheritedRunners
        ∧ (pitchPart (processCell roster bt tl row v st).playerStats p).map Pitching.BF
            = some (((pitchPart st.playerStats p).getD pit0).BF + (parseCell v).BF)
        ∧ (pitchPart (processCell roster bt tl row v st).playerStats p).map Pitching.K
            = some (((pitchPart st.playerStats p).getD pit0).K + (parseCell v).K)
        ∧ (pitchPart (processCell roster bt tl row v st).playerStats p).map Pitching.outs
            = some (((pitchPart st.playerStats p).getD pit0).outs + (parseCell v).outs)
        ∧ (hitPart (processCell roster bt tl row v st).playerStats b).map Hitting.AB
            = some (((hitPart st.playerStats b).getD hit0).AB + (parseCell v).AB)
        ∧ (hitPart (processCell roster bt tl row v st).playerStats b).map Hitting.K
            = some (((hitPart st.playerStats b).getD hit0).K + (parseCell v).K)
        ∧ (hitPart (processCell roster bt tl row v st).playerStats b).map Hitting.TB
            = some (((hitPart st.playerStats b).getD hit0).TB + (parseCell v).TB)
        ∧ (∀ q, q ≠ p → st.previousPitcher ≠ some q →
            pitchPart (processCell roster bt tl row v st).playerStats q
              = pitchPart st.playerStats q)) := by
  constructor
  · intro hcond
    rw [processCell_standalone roster bt tl row v st hcond]
    exact ⟨rfl, rfl, rfl, rfl, rfl⟩
  · intro b p hpc hBF hbat hap
    have hcond : ¬((parseCell v).isPitcherChange = true ∧ (parseCell v).BF = 0) := by
      rintro ⟨-, h0⟩
      exact hBF h0
    have hcell := processCell_atBat roster bt tl row v st b hcond hbat
    have hps := processCellBody_playerStats roster bt tl v st b
    have hhandoff := processCellBody_handoff roster bt tl v st b hpc
    have hm3 : pitchPart
        (applyHitting (ensurePitcher (ensureBatter st.playerStats b) (some p)) b (parseCell v)) p
        = some ((pitchPart st.playerStats p).getD pit0) := by
      rw [pitchPart_applyHitting, pitchPart_ensurePitcher_self, pitchPart_ensureBatter]
    have hpipe : ∀ q : String,
        pitchPart (processCell roster bt tl row v st).playerStats q =
          pitchPart (applyPitchingAndRuns
            (applyHitting (ensurePitcher (ensureBatter st.playerStats b) (some p)) b (parseCell v))
            (some p) st.previousPitcher st.inheritedRunners (parseCell v)).1 q := by
      intro q
      rw [hcell, hps, pitchPart_applySB, pitchPart_applyErrorFielding, pitchPart_applyNicePlay, hap]
    have hm3b : hitPart
        (applyHitting (ensurePitcher (ensureBatter st.playerStats b) (some p)) b (parseCell v)) b
        = some (hittingAdd ((hitPart st.playerStats b).getD hit0) (parseCell v)) := by
      rw [hitPart_applyHitting_self, hitPart_ensurePitcher, hitPart_ensureBatter_self]
      simp
    have hhit : ∀ {A : Type} (f : Hitting → A), (∀ h n, f { h with ROB := n } = f h) →
        (hitPart (processCell roster bt tl row v st).playerStats b).map f
          = some (f (hittingAdd ((hitPart st.playerStats b).getD hit0) (parseCell v))) := by
      intro A f hf
      rw [hcell, hps, hitPart_applySB, hitPart_applyErrorFielding,
        hitProj_applyNicePlay f hf _ roster bt.opp b (parseCell v) b
          (Or.inl (by rw [hap, hitPart_aPR, hm3b]; rfl)),
        hap, hitPart_aPR, hm3b]
      rfl
    have hpitch : ∀ {A : Type} (f : Pitching → A), (∀ rec n, f { rec with R := n } = f rec) →
        (pitchPart (processCell roster bt tl row v st).playerStats p).map f
          = some (f (pitchAdd ((pitchPart st.playerStats p).getD pit0) (parseCell v))) := by
      intro A f hf
      rw [hpipe p]
      exact aPR_proj f hf _ _ _ _ _ _ hm3
    refine ⟨by rw [hcell, hhandoff.1, hap], by rw [hcell]; exact hhandoff.2.1,
      by rw [hcell]; exact hhandoff.2.2.1, by rw [hcell]; exact hhandoff.2.2.2,
      ?_, ?_, ?_, ?_, ?_, ?_, fun q hqp hppq => ?_⟩
    · rw [hpitch Pitching.BF fun _ _ => rfl]
      rfl
    · rw [hpitch Pitching.K fun _ _ => rfl]
      rfl
    · rw [hpitch Pitching.outs fun _ _ => rfl]
      rfl
    · rw [hhit Hitting.AB fun _ _ => rfl]
      rfl
    · rw [hhit Hitting.K fun _ _ => rfl]
      rfl
    · rw [hhit Hitting.TB fun _ _ => rfl]
      rfl
    · rw [hpipe q, aPR_other _ _ _ _ _ _ hm3 q hqp hppq, pitchPart_applyHitting,
        pitchPart_ensurePitcher_ne _ _ _ hqp, pitchPart_ensureBatter]

/-- C2 witness: the standalone clause applied to the cell "PC2" at the
fresh state, and the combined clause applied to the cell "K PC2" (the
departing pitcher A is charged the strikeout and the batter faced before
the handoff installs reliever B). -/
theorem spec_C2_witness :
    ((processCell wRoster .away wTimeline 1 (chars ("PC2")) wState0).playerStats
        = wState0.playerStats
      ∧ (processCell wRoster .away wTimeline 1 (chars ("PC2")) wState0).previousPitcher
        = wState0.activePitcher
      ∧ (processCell wRoster .away wTimeline 1 (chars ("PC2")) wState0).pitcherIndex
        = wState0.pitcherIndex + 1
      ∧ (processCell wRoster .away wTimeline 1 (chars ("PC2")) wState0).activePitcher
        = tlook wTimeline (wState0.pitcherIndex + 1)
      ∧ (processCell wRoster .away wTimeline 1 (chars ("PC2")) wState0).inheritedRunners
        = (parseCell (chars ("PC2"))).inheritedRunners)
    ∧ ((processCell wRoster .away wTimeline 0 (chars ("K PC2")) wState0).previousPitcher
        = some ("A")
      ∧ (pitchPart (processCell wRoster .away wTimeline 0 (chars ("K PC2")) wState0).playerStats
            ("A")).map Pitching.K
        = some (((pitchPart wState0.playerStats ("A")).getD pit0).K
            + (parseCell (chars ("K PC2"))).K)
      ∧ (hitPart (processCell wRoster .away wTimeline 0 (chars ("K PC2")) wState0).playerStats
            ("b0")).map Hitting.AB
        = some (((hitPart wState0.playerStats ("b0")).getD hit0).AB
            + (parseCell (chars ("K PC2"))).AB)
      ∧ (processCell wRoster .away wTimeline 0 (chars ("K PC2")) wState0).activePitcher
        = tlook wTimeline (wState0.pitcherIndex + 1)) := by
  have ha := (spec_C2 wRoster .away wTimeline 1 (chars ("PC2")) wState0).1 (by decide)
  have hb := (spec_C2 wRoster .away wTimeline 0 (chars ("K PC2")) wState0).2 ("b0") ("A")
    (by decide) (by decide) (by decide) rfl
  exact ⟨ha, hb.1, hb.2.2.2.2.2.1, hb.2.2.2.2.2.2.2.1, hb.2.2.1⟩

/-! ## C10 -/

/-- C10: with no active pitcher (for example a hole in the pitcher
timeline at the current index), a processed cell with `runsAllowed > 0`
attributes the runs to no pitcher at all — every pitching record is
untouched, including a previous pitcher with an existing pitching record —
and the inherited-runner count is not decremented, because the whole
run-attribution block is guarded by the active-pitcher check; the batter
still receives the full RBI credit for the cell. -/
theorem spec_C10 (roster : Roster) (bt : Team) (tl : List (Option String)) (row : Nat)
    (v : List Char) (st : ReplayState) (b : String)
    (hap : st.activePitcher = none)
    (hpc : (parseCell v).isPitcherChange = false)
    (hbat : batterFor roster bt row = some b) :
    (∀ q, pitchPart (processCell roster bt tl row v st).playerStats q
        = pitchPart st.playerStats q)
    ∧ (processCell roster bt tl row v st).inheritedRunners = st.inheritedRunners
    ∧ (hitPart (processCell roster bt tl row v st).playerStats b).map Hitting.RBI
        = some (((hitPart st.playerStats b).getD hit0).RBI + (parseCell v).R) := by
  have hcond : ¬((parseCell v).isPitcherChange = true ∧ (parseCell v).BF = 0) := by
    rintro ⟨h1, -⟩
    rw [hpc] at h1
    exact Bool.false_ne_true h1
  have hcell := processCell_atBat roster bt tl row v st b hcond hbat
  have hps := processCellBody_playerStats roster bt tl v st b
  have hm3b : hitPart (applyHitting (ensureBatter st.playerStats b) b (parseCell v)) b
      = some (hittingAdd ((hitPart st.playerStats b).getD hit0) (parseCell v)) := by
    rw [hitPart_applyHitting_self, hitPart_ensureBatter_self]
    simp
  refine ⟨fun q => ?_, ?_, ?_⟩
  · rw [hcell, hps, pitchPart_applySB, pitchPart_applyErrorFielding, pitchPart_applyNicePlay,
      hap, ensurePitcher_none, aPR_none, pitchPart_applyHitting, pitchPart_ensureBatter]
  · rw [hcell, processCellBody_ir roster bt tl v st b hpc, hap, ensurePitcher_none, aPR_none]
  · rw [hcell, hps, hitPart_applySB, hitPart_applyErrorFielding,
      hitProj_applyNicePlay Hitting.RBI (fun _ _ => rfl) _ roster bt.opp b (parseCell v) b
        (Or.inl (by rw [hap, ensurePitcher_none, aPR_none, hm3b]; rfl)),
      hap, ensurePitcher_none, aPR_none, hm3b]
    rfl

/-- C10 witness: the theorem applied at the concrete state with no active
pitcher, two inherited runners, and previous pitcher A holding a pitching
record, on the cell "1B 2RBI": A's record is untouched, the count stays 2,
and the batter is credited both RBIs. -/
theorem spec_C10_witness :
    (pitchPart (processCell wRoster .away wTimeline 0 (chars ("1B 2RBI")) wStateNoAP).playerStats
        ("A") = pitchPart wStateNoAP.playerStats ("A"))
    ∧ (processCell wRoster .away wTimeline 0 (chars ("1B 2RBI")) wStateNoAP).inheritedRunners
        = wStateNoAP.inheritedRunners
    ∧ (hitPart (processCell wRoster .away wTimeline 0 (chars ("1B 2RBI")) wStateNoAP).playerStats
          ("b0")).map Hitting.RBI
        = some (((hitPart wStateNoAP.playerStats ("b0")).getD hit0).RBI
            + (parseCell (chars ("1B 2RBI"))).R) := by
  have h := spec_C10 wRoster .away wTimeline 0 (chars ("1B 2RBI")) wStateNoAP ("b0")
    rfl (by decide) (by decide)
  exact ⟨h.1 ("A"), h.2.1, h.2.2⟩

end CLB
